import Mathlib

/-!
Shallow embedding of the in-memory blob store in `src/iroh/src/baomap/mem.rs`.

Modelling conventions:
* Byte buffers are `List Nat`; hashes (`iroh_bytes::Hash` / `blake3::Hash`)
  are abstracted to `Nat` since only identity and ordering of hashes matter
  to the store logic.
* `BTreeMap` is embedded as an association list with `mapLookup`,
  `mapInsert` (which replaces any earlier binding, as `BTreeMap::insert`
  does) and `mapErase` (as `BTreeMap::remove`).
* The external `bao_tree` crate functions used by the store
  (`bao_tree::io::outboard`, `bao_tree::io::outboard_size`) are pure; they
  are passed in as a `BaoLib` record of abstract pure functions, so every
  theorem holds for any tree-hash implementation.
* `usize::try_from` on a `u64` is modelled with the explicit bound
  `USIZE_MAX`; a value above the bound yields the "data too large" error,
  exactly as `data_too_large` converts `TryFromIntError`.
* Rust mutation is explicit state passing: each store operation maps a
  `State` (the two maps guarded by the `RwLock`) to a new `State`.  A
  single critical section (one `read()`/`write()` lock scope) becomes one
  atomic function application, so the observable states are exactly the
  states before and after each critical section.
* Filesystem access is a parameter `fs : Path → Option (List Nat)`;
  progress senders (`ProgressSender` + `IdGenerator`) are embedded as a
  counter plus the list of messages sent so far (`blocking_send` and
  `try_send` both append their message).
-/

namespace MemStore

/-- Hashes, abstracted to natural numbers (stand-in for a 32-byte digest). -/
abbrev Hash := Nat

/-- Bound of `usize` on the 64-bit targets the crate builds for; a `u64`
above this bound makes `usize::try_from` fail. -/
def USIZE_MAX : Nat := 2 ^ 64 - 1

/-- `iroh_bytes::IROH_BLOCK_SIZE`, the fixed block size `BlockSize(4)`. -/
def IROH_BLOCK_SIZE : Nat := 4

/-- The fixed export chunk size `1024 * 1024` from `Store::export_sync`. -/
def chunkSize : Nat := 1024 * 1024

/-- The distinct `io::Error` values produced in `mem.rs`:
`invalidInput` is `ErrorKind::InvalidInput` (non-absolute target, target
without parent), `notFound` is `ErrorKind::NotFound` ("hash not found"),
`dataTooLarge` is `ErrorKind::Other` with message
"data too large to fit in memory", and `readOnly` is `ErrorKind::Other`
with message "cannot write to immutable data". -/
inductive IoErr where
  | invalidInput
  | notFound
  | dataTooLarge
  | readOnly
deriving DecidableEq, Repr

/-- `bao_tree::BaoTree::new(ByteNum(size), block_size)`: content length
plus block size, purely derived metadata. -/
structure BaoTree where
  size : Nat
  blockSize : Nat
deriving DecidableEq, Repr

/-- `BaoTree::new` with the fixed `IROH_BLOCK_SIZE` as used in `mem.rs`. -/
def BaoTree.new (size : Nat) : BaoTree := ⟨size, IROH_BLOCK_SIZE⟩

/-- `bao_tree::io::outboard::PreOrderOutboard`. -/
structure PreOrderOutboard (α : Type) where
  root : Hash
  tree : BaoTree
  data : α
deriving DecidableEq, Repr

/-- `MutableMemFile`: the `Arc<RwLock<BytesMut>>` buffer of a partial
entry.  `data` is the buffer's content (its length), `capacity` the
reserved capacity of the `BytesMut`. -/
structure MutableMemFile where
  data : List Nat
  capacity : Nat
deriving DecidableEq, Repr

/-- `MutableMemFile::with_capacity`: an empty buffer with the given
reserved capacity (`BytesMut::with_capacity`). -/
def MutableMemFile.withCapacity (c : Nat) : MutableMemFile := ⟨[], c⟩

/-- `MutableMemFile::freeze`: swaps the content out and returns it as
immutable `Bytes` (the original shared container is left empty). -/
def MutableMemFile.freeze (f : MutableMemFile) : List Nat := f.data

/-- `BytesMut::write_at` via `iroh_io`: zero-fill any gap up to `off`,
then overwrite with `bytes`, extending the buffer as needed. -/
def MutableMemFile.writeAtM (f : MutableMemFile) (off : Nat) (bytes : List Nat) :
    MutableMemFile :=
  let cur := f.data
  let padded := if cur.length < off then cur ++ List.replicate (off - cur.length) 0 else cur
  let newData := padded.take off ++ bytes ++ padded.drop (off + bytes.length)
  ⟨newData, max f.capacity newData.length⟩

/-- `BytesMut::set_len` via `iroh_io`: truncate or zero-extend to `len`. -/
def MutableMemFile.setLenM (f : MutableMemFile) (len : Nat) : MutableMemFile :=
  let newData :=
    if len ≤ f.data.length then f.data.take len
    else f.data ++ List.replicate (len - f.data.length) 0
  ⟨newData, max f.capacity len⟩

/-- `MemFile`: a file-like object in readonly or writeable mode. -/
inductive MemFile where
  | immutable (data : List Nat)
  | mutable (file : MutableMemFile)
deriving DecidableEq, Repr

/-- `AsyncSliceReader::read_at` on a `MemFile`: up to `len` bytes starting
at `off`. -/
def MemFile.readAt : MemFile → Nat → Nat → List Nat
  | .immutable d, off, len => (d.drop off).take len
  | .mutable f, off, len => (f.data.drop off).take len

/-- `AsyncSliceWriter::write_at` on a `MemFile`: the immutable variant
fails with the read-only error and is untouched, the mutable variant
delegates to the `BytesMut` write.  Returns the operation result together
with the resulting file. -/
def MemFile.writeAt : MemFile → Nat → List Nat → Except IoErr Unit × MemFile
  | .immutable d, _, _ => (.error .readOnly, .immutable d)
  | .mutable f, off, bytes => (.ok (), .mutable (f.writeAtM off bytes))

/-- `AsyncSliceWriter::set_len` on a `MemFile`. -/
def MemFile.setLen : MemFile → Nat → Except IoErr Unit × MemFile
  | .immutable d, _ => (.error .readOnly, .immutable d)
  | .mutable f, len => (.ok (), .mutable (f.setLenM len))

/-- `AsyncSliceWriter::sync` on a `MemFile`: always succeeds, no-op. -/
def MemFile.sync (m : MemFile) : Except IoErr Unit × MemFile := (.ok (), m)

/-- Association-list embedding of `BTreeMap` lookup. -/
def mapLookup {α : Type} : List (Hash × α) → Hash → Option α
  | [], _ => none
  | (k, v) :: rest, h => if h = k then some v else mapLookup rest h

/-- Association-list embedding of `BTreeMap::remove` (key removal). -/
def mapErase {α : Type} (k : Hash) : List (Hash × α) → List (Hash × α)
  | [] => []
  | (k', v) :: rest => if k' = k then mapErase k rest else (k', v) :: mapErase k rest

/-- Association-list embedding of `BTreeMap::insert`: binds `k` to `v`,
replacing any previous binding. -/
def mapInsert {α : Type} (k : Hash) (v : α) (m : List (Hash × α)) : List (Hash × α) :=
  (k, v) :: mapErase k m

/-- The `State` behind the store's `RwLock`: the `complete` map and the
map of partial entries (field `partial` in the source; renamed here
because `partial` is a Lean keyword). -/
structure State where
  complete : List (Hash × (List Nat × PreOrderOutboard (List Nat)))
  partialMap : List (Hash × (MutableMemFile × PreOrderOutboard MutableMemFile))
deriving DecidableEq, Repr

/-- The complete-entry view handed out by `Store::get`. -/
structure Entry where
  hash : Hash
  outboard : PreOrderOutboard MemFile
  data : MemFile
deriving DecidableEq, Repr

/-- `Entry::size`: read from the tree metadata
(`self.outboard.tree().size().0`), never from the buffer. -/
def Entry.size (e : Entry) : Nat := e.outboard.tree.size

/-- The partial-entry handle handed out by `get_or_create_partial`. -/
structure PartialEntry where
  hash : Hash
  outboard : PreOrderOutboard MutableMemFile
  data : MutableMemFile
deriving DecidableEq, Repr

/-- `PartialEntry::size`: read from the tree metadata, never from the
buffer. -/
def PartialEntry.size (e : PartialEntry) : Nat := e.outboard.tree.size

/-- The pure functions of the external `bao_tree` crate used by the store:
`outboardData` and `rootHash` are the two components returned by
`bao_tree::io::outboard(bytes, IROH_BLOCK_SIZE)`, and `outboardSize` is
`bao_tree::io::outboard_size(len, IROH_BLOCK_SIZE)`. -/
structure BaoLib where
  outboardData : List Nat → List Nat
  rootHash : List Nat → Hash
  outboardSize : Nat → Nat

/-- `Store::get`: complete map first, then partial, else `None`.  An entry
found in `complete` wraps immutable buffers; one found in `partial` wraps
the mutable buffers. -/
def get (σ : State) (h : Hash) : Option Entry :=
  match mapLookup σ.complete h with
  | some (data, outboard) =>
    some ⟨h, ⟨outboard.root, outboard.tree, .immutable outboard.data⟩, .immutable data⟩
  | none =>
    match mapLookup σ.partialMap h with
    | some (data, outboard) =>
      some ⟨h, ⟨outboard.root, outboard.tree, .mutable outboard.data⟩, .mutable data⟩
    | none => none

/-- `PartialMap::get_partial`: partial map lookup only. -/
def getPartialEntry (σ : State) (h : Hash) : Option PartialEntry :=
  match mapLookup σ.partialMap h with
  | some (data, outboard) => some ⟨h, outboard, data⟩
  | none => none

/-- `Store::get_or_create_partial`: build the tree metadata, convert the
outboard size and the content size to `usize` (each failure is the
"data too large" error), allocate both buffers with `with_capacity`,
insert into the partial map replacing any existing entry, and return the
handle together with the updated state. -/
def getOrCreatePartial (bao : BaoLib) (σ : State) (hash : Hash) (size : Nat) :
    Except IoErr (PartialEntry × State) :=
  let tree := BaoTree.new size
  if bao.outboardSize size > USIZE_MAX then .error .dataTooLarge
  else if size > USIZE_MAX then .error .dataTooLarge
  else
    let data := MutableMemFile.withCapacity size
    let outboard := MutableMemFile.withCapacity (bao.outboardSize size)
    let ob2 : PreOrderOutboard MutableMemFile := ⟨hash, tree, outboard⟩
    .ok (⟨hash, ⟨hash, tree, outboard⟩, data⟩,
      { σ with partialMap := mapInsert hash (data, ob2) σ.partialMap })

/-- `PartialMap::insert_complete`: freeze the entry's data and outboard
buffers, then — inside the single `state.write()` critical section —
remove the hash from the partial map and insert the frozen pair into the
complete map. -/
def insertComplete (σ : State) (entry : PartialEntry) : State :=
  let hash := entry.hash
  let data := entry.data.freeze
  let outboard : PreOrderOutboard (List Nat) :=
    ⟨entry.outboard.root, entry.outboard.tree, entry.outboard.data.freeze⟩
  { complete := mapInsert hash (data, outboard) σ.complete,
    partialMap := mapErase hash σ.partialMap }

/-- `ReadableStore::roots`: always the empty iterator. -/
def roots (_ : State) : List Hash := []

/-- A component (here `Path`) of the filesystem boundary:
`std::path::PathBuf` abstracted to an absolute flag plus components.
`is_absolute` reads the flag; `parent()` is `none` exactly for a root or
empty path, else drops the last component. -/
structure Path where
  absolute : Bool
  components : List String
deriving DecidableEq, Repr

/-- `PathBuf::is_absolute`. -/
def Path.isAbsolute (p : Path) : Bool := p.absolute

/-- `PathBuf::parent`. -/
def Path.parent (p : Path) : Option Path :=
  match p.components with
  | [] => none
  | _ => some ⟨p.absolute, p.components.dropLast⟩

/-- The closed set of `ImportProgress` milestone messages. -/
inductive ImportProgress where
  | found (id : Nat) (path : Path)
  | copyProgress (id : Nat) (offset : Nat)
  | size (id : Nat) (size : Nat)
  | outboardProgress (id : Nat) (offset : Nat)
  | outboardDone (id : Nat) (hash : Hash)
deriving DecidableEq, Repr

/-- The operation id a milestone message is tagged with. -/
def ImportProgress.opId : ImportProgress → Nat
  | .found id _ => id
  | .copyProgress id _ => id
  | .size id _ => id
  | .outboardProgress id _ => id
  | .outboardDone id _ => id

/-- A `ProgressSender + IdGenerator` pair: `nextId` is the id counter
(`new_id` returns it and increments), `msgs` the messages sent so far
(`blocking_send` / `try_send` append). -/
structure ProgressState where
  nextId : Nat
  msgs : List ImportProgress
deriving DecidableEq, Repr

/-- `Store::import_bytes_sync`: draw a fresh id, send `OutboardProgress`,
compute the outboard and root hash with `bao_tree::io::outboard`, send
`OutboardDone`, and insert the bytes with their outboard into the
complete map.  Returns the hash, the new state and the progress state. -/
def importBytesSync (bao : BaoLib) (σ : State) (bytes : List Nat) (pr : ProgressState) :
    Hash × State × ProgressState :=
  let size := bytes.length
  let id := pr.nextId
  let pr1 : ProgressState := ⟨pr.nextId + 1, pr.msgs ++ [.outboardProgress id 0]⟩
  let hash := bao.rootHash bytes
  let ob := bao.outboardData bytes
  let pr2 : ProgressState := ⟨pr1.nextId, pr1.msgs ++ [.outboardDone id hash]⟩
  let tree := BaoTree.new size
  let outboard : PreOrderOutboard (List Nat) := ⟨hash, tree, ob⟩
  (hash, { σ with complete := mapInsert hash (bytes, outboard) σ.complete }, pr2)

/-- The `spawn_blocking` closure of `baomap::Store::import`: draw a fresh
id, send `Found` and `CopyProgress`, read the file (`none` models an I/O
failure, which aborts with the messages already sent), send `Size`, then
run `import_bytes_sync` (which draws a second id of its own). -/
def importSync (bao : BaoLib) (fs : Path → Option (List Nat)) (σ : State) (path : Path)
    (pr : ProgressState) : Option (Hash × Nat) × State × ProgressState :=
  let id := pr.nextId
  let pr1 : ProgressState :=
    ⟨pr.nextId + 1, pr.msgs ++ [.found id path, .copyProgress id 0]⟩
  match fs path with
  | none => (none, σ, pr1)
  | some bytes =>
    let pr2 : ProgressState := ⟨pr1.nextId, pr1.msgs ++ [.size id bytes.length]⟩
    let r := importBytesSync bao σ bytes pr2
    (some (r.1, bytes.length), r.2.1, r.2.2)

/-- Observable events of the `export_sync` write loop: a `progress(offset)`
call or a chunk written to the target file. -/
inductive ExportEvent where
  | prog (offset : Nat)
  | write (chunk : List Nat)
deriving DecidableEq, Repr

/-- The `for chunk in data.chunks(1024 * 1024)` loop of `export_sync`:
for each chunk, call `progress(offset)` and then write the chunk.  The
fuel argument makes the recursion structural; `data.length` fuel is
always enough because every round consumes at least one byte. -/
def exportEvents : Nat → List Nat → Nat → List ExportEvent
  | 0, _, _ => []
  | _, [], _ => []
  | fuel + 1, d :: ds, offset =>
    let chunk := (d :: ds).take chunkSize
    .prog offset :: .write chunk ::
      exportEvents fuel ((d :: ds).drop chunkSize) (offset + chunk.length)

/-- `Store::export_sync`: reject a non-absolute target, reject a target
without parent, create the parent directory (always succeeds in the
model), look the hash up in the complete map only (`NotFound` otherwise),
and stream the content in fixed-size chunks. -/
def exportSync (σ : State) (hash : Hash) (target : Path) :
    Except IoErr (List ExportEvent) :=
  if target.isAbsolute = false then .error .invalidInput
  else
    match target.parent with
    | none => .error .invalidInput
    | some _ =>
      match mapLookup σ.complete hash with
      | none => .error .notFound
      | some (data, _) => .ok (exportEvents data.length data 0)

/-- The bytes written to the target file by a list of export events. -/
def writtenBytes : List ExportEvent → List Nat
  | [] => []
  | .write ch :: rest => ch ++ writtenBytes rest
  | .prog _ :: rest => writtenBytes rest

/-- The arguments of the `progress` calls of a list of export events, in
order. -/
def progressCalls : List ExportEvent → List Nat
  | [] => []
  | .prog o :: rest => o :: progressCalls rest
  | .write _ :: rest => progressCalls rest

/-- Number of chunks `data.chunks(chunkSize)` yields for a given length. -/
def numChunks (len : Nat) : Nat := (len + chunkSize - 1) / chunkSize

/-- `PairedFrom n evs` holds when `evs` is an alternation
`progress n, write c₁, progress (n + |c₁|), write c₂, …`: exactly one
`progress` call immediately before each chunk write, with the cumulative
number of bytes written as argument. -/
def PairedFrom : Nat → List ExportEvent → Prop
  | _, [] => True
  | n, .prog o :: .write ch :: rest => o = n ∧ PairedFrom (n + ch.length) rest
  | _, _ => False

/-- The store operations quantified over in the disjointness claim. -/
inductive StoreOp where
  | createPartialOp (hash : Hash) (size : Nat)
  | insertCompleteOp (entry : PartialEntry)
  | importBytesOp (bytes : List Nat)
  | importFileOp (path : Path)
deriving Repr

/-- The state transition of one store operation (return values, progress
messages and errors are discarded; a failing operation leaves the state
unchanged, as in the source). -/
def applyOp (bao : BaoLib) (fs : Path → Option (List Nat)) (σ : State) : StoreOp → State
  | .createPartialOp h s =>
    match getOrCreatePartial bao σ h s with
    | .ok (_, σ') => σ'
    | .error _ => σ
  | .insertCompleteOp e => insertComplete σ e
  | .importBytesOp b => (importBytesSync bao σ b ⟨0, []⟩).2.1
  | .importFileOp p => (importSync bao fs σ p ⟨0, []⟩).2.1

/-- Run a sequence of store operations from a starting state. -/
def runOps (bao : BaoLib) (fs : Path → Option (List Nat)) : State → List StoreOp → State
  | σ, [] => σ
  | σ, op :: rest => runOps bao fs (applyOp bao fs σ op) rest

/-- Disjointness of the two maps: no hash is a key of both. -/
def State.DisjointMaps (σ : State) : Prop :=
  ∀ h : Hash, (mapLookup σ.complete h).isSome = true → mapLookup σ.partialMap h = none

/-- Side condition under which one operation preserves disjointness:
`get_or_create_partial` must not be called for a hash that is already
complete, and an import must not insert bytes whose hash has a live
partial entry (these are exactly the two paths on which the source
violates the invariant). -/
def SafeOp (bao : BaoLib) (fs : Path → Option (List Nat)) (σ : State) : StoreOp → Bool
  | .createPartialOp h _ => (mapLookup σ.complete h).isNone
  | .insertCompleteOp _ => true
  | .importBytesOp b => (mapLookup σ.partialMap (bao.rootHash b)).isNone
  | .importFileOp p =>
    match fs p with
    | none => true
    | some bytes => (mapLookup σ.partialMap (bao.rootHash bytes)).isNone

/-- `SafeOp` holding at every step of a sequence. -/
def SafeOps (bao : BaoLib) (fs : Path → Option (List Nat)) : State → List StoreOp → Bool
  | _, [] => true
  | σ, op :: rest => SafeOp bao fs σ op && SafeOps bao fs (applyOp bao fs σ op) rest

/-- Whether every milestone message in a list is tagged with the same
operation id. -/
def allSameId (ms : List ImportProgress) : Bool :=
  match ms with
  | [] => true
  | m :: rest => rest.all fun x => x.opId == m.opId

/-- A concrete stand-in instance of the external tree-hash library, used
for concrete evaluations: the root hash of a byte list is its length. -/
def bao0 : BaoLib := ⟨fun _ => [], fun b => b.length, fun _ => 0⟩

/-- A concrete filesystem with no readable files. -/
def fs0 : Path → Option (List Nat) := fun _ => none

theorem mapLookup_erase {α : Type} (k h : Hash) (m : List (Hash × α)) :
    mapLookup (mapErase k m) h = if h = k then none else mapLookup m h := by
  induction m with
  | nil => simp [mapErase, mapLookup]
  | cons kv rest ih =>
    obtain ⟨k', v⟩ := kv
    by_cases hk : k' = k <;> by_cases hh : h = k <;> by_cases hh' : h = k' <;>
      simp_all [mapErase, mapLookup]

theorem mapLookup_insert {α : Type} (k h : Hash) (v : α) (m : List (Hash × α)) :
    mapLookup (mapInsert k v m) h = if h = k then some v else mapLookup m h := by
  by_cases hh : h = k <;> simp [mapInsert, mapLookup, mapLookup_erase, hh]

/-- C10: `roots()` returns the empty sequence for every store state,
regardless of how many complete or partial entries it holds. -/
theorem roots_always_empty : ∀ σ : State, roots σ = [] := fun _ => rfl

/-- C8: on the immutable `MemFile` variant, for every stored byte buffer,
offset and data slice, `write_at` and `set_len` fail with the read-only
error and leave the stored bytes unchanged, and `sync` succeeds as a
no-op. -/
theorem memFile_immutable_readonly :
    ∀ (d : List Nat) (off : Nat) (bytes : List Nat) (len : Nat),
      MemFile.writeAt (.immutable d) off bytes = (.error .readOnly, .immutable d) ∧
      MemFile.setLen (.immutable d) len = (.error .readOnly, .immutable d) ∧
      MemFile.sync (.immutable d) = (.ok (), .immutable d) :=
  fun _ _ _ _ => ⟨rfl, rfl, rfl⟩

/-- C2: for every byte sequence `B`, `import_bytes(B)` returns the root
hash computed by the tree-hash library; `get` of that hash yields an
entry whose data reader reads back exactly `B` and whose stored hash is
that independently computed root hash. -/
theorem importBytes_roundtrip (bao : BaoLib) (σ : State) (bytes : List Nat)
    (pr : ProgressState) :
    (importBytesSync bao σ bytes pr).1 = bao.rootHash bytes ∧
    (get (importBytesSync bao σ bytes pr).2.1 (bao.rootHash bytes)).map
        (fun e => (e.hash, MemFile.readAt e.data 0 bytes.length)) =
      some (bao.rootHash bytes, bytes) := by
  refine ⟨rfl, ?_⟩
  simp [importBytesSync, get, mapLookup_insert, MemFile.readAt]

/-- C9: `size()` of an entry or a partial entry is always the content
length recorded in the tree metadata, never the current length of the
underlying buffer; in particular a partial entry created with requested
size `s` reports `size() = s` while its buffer is still empty. -/
theorem size_from_tree_metadata :
    (∀ e : Entry, e.size = e.outboard.tree.size) ∧
    (∀ e : PartialEntry, e.size = e.outboard.tree.size) ∧
    ∀ (bao : BaoLib) (σ : State) (h : Hash) (s : Nat) (p : PartialEntry) (σ' : State),
      getOrCreatePartial bao σ h s = .ok (p, σ') →
      p.size = s ∧ p.data.data = [] := by
  refine ⟨fun _ => rfl, fun _ => rfl, ?_⟩
  intro bao σ h s p σ' hok
  unfold getOrCreatePartial at hok
  split at hok
  · exact absurd hok (by simp)
  · split at hok
    · exact absurd hok (by simp)
    · simp only [Except.ok.injEq, Prod.mk.injEq] at hok
      obtain ⟨hp, hσ⟩ := hok
      subst hp
      exact ⟨rfl, rfl⟩

/-- C3: `insert_complete` freezes the partial entry's data and outboard
buffers into immutable form and, in one critical section (one atomic
state transition in this embedding), removes the hash from the partial
map and inserts the frozen pair into the complete map; both observable
states (before and after the transition) have the hash in exactly one of
the two maps, so no reader sees it absent from both or present in both. -/
theorem insertComplete_atomic (σ : State) (entry : PartialEntry)
    (hp : (mapLookup σ.partialMap entry.hash).isSome = true)
    (hc : mapLookup σ.complete entry.hash = none) :
    mapLookup (insertComplete σ entry).complete entry.hash =
      some (entry.data.freeze,
        ⟨entry.outboard.root, entry.outboard.tree, entry.outboard.data.freeze⟩) ∧
    mapLookup (insertComplete σ entry).partialMap entry.hash = none ∧
    (get (insertComplete σ entry) entry.hash).map Entry.data =
      some (MemFile.immutable entry.data.freeze) ∧
    ∀ σobs ∈ [σ, insertComplete σ entry],
      (mapLookup σobs.complete entry.hash).isSome =
        !(mapLookup σobs.partialMap entry.hash).isSome := by
  refine ⟨?_, ?_, ?_, ?_⟩
  · simp [insertComplete, mapLookup_insert]
  · simp [insertComplete, mapLookup_erase]
  · simp [insertComplete, get, mapLookup_insert]
  · intro σobs hmem
    simp only [List.mem_cons, List.not_mem_nil, or_false] at hmem
    rcases hmem with rfl | rfl
    · simp [hc, hp]
    · simp [insertComplete, mapLookup_insert, mapLookup_erase]

/-- C3 (witness): the transition theorem applied to a concrete state
holding one partial entry. -/
theorem insertComplete_atomic_witness :
    (mapLookup (⟨[], [(2, (⟨[9], 1⟩, ⟨2, ⟨1, 4⟩, ⟨[], 0⟩⟩))]⟩ : State).partialMap
        2).isSome = true ∧
    (mapLookup
        (insertComplete ⟨[], [(2, (⟨[9], 1⟩, ⟨2, ⟨1, 4⟩, ⟨[], 0⟩⟩))]⟩
          ⟨2, ⟨2, ⟨1, 4⟩, ⟨[], 0⟩⟩, ⟨[9], 1⟩⟩).complete 2) =
      some ([9], ⟨2, ⟨1, 4⟩, []⟩) :=
  ⟨by decide,
    (insertComplete_atomic ⟨[], [(2, (⟨[9], 1⟩, ⟨2, ⟨1, 4⟩, ⟨[], 0⟩⟩))]⟩
      ⟨2, ⟨2, ⟨1, 4⟩, ⟨[], 0⟩⟩, ⟨[9], 1⟩⟩ (by decide) (by decide)).1⟩

/-- C9 (witness): a concrete partial entry requested with size 5 reports
size 5 while its buffer is empty. -/
theorem size_from_tree_metadata_witness :
    getOrCreatePartial bao0 ⟨[], []⟩ 0 5 =
      .ok (⟨0, ⟨0, ⟨5, 4⟩, ⟨[], 0⟩⟩, ⟨[], 5⟩⟩,
        ⟨[], [(0, (⟨[], 5⟩, ⟨0, ⟨5, 4⟩, ⟨[], 0⟩⟩))]⟩) ∧
    (⟨0, ⟨0, ⟨5, 4⟩, ⟨[], 0⟩⟩, ⟨[], 5⟩⟩ : PartialEntry).size = 5 ∧
    (⟨0, ⟨0, ⟨5, 4⟩, ⟨[], 0⟩⟩, ⟨[], 5⟩⟩ : PartialEntry).data.data = [] :=
  ⟨by rfl,
    size_from_tree_metadata.2.2 bao0 ⟨[], []⟩ 0 5
      ⟨0, ⟨0, ⟨5, 4⟩, ⟨[], 0⟩⟩, ⟨[], 5⟩⟩
      ⟨[], [(0, (⟨[], 5⟩, ⟨0, ⟨5, 4⟩, ⟨[], 0⟩⟩))]⟩ (by rfl)⟩

theorem disjoint_insert_complete (σ : State) (hσ : σ.DisjointMaps) (H : Hash)
    (v : List Nat × PreOrderOutboard (List Nat))
    (hnone : mapLookup σ.partialMap H = none) :
    State.DisjointMaps { σ with complete := mapInsert H v σ.complete } := by
  intro h' hc'
  by_cases hh : h' = H
  · subst hh; exact hnone
  · rw [mapLookup_insert] at hc'
    rw [if_neg hh] at hc'
    exact hσ h' hc'

theorem disjoint_insertComplete (σ : State) (hσ : σ.DisjointMaps) (e : PartialEntry) :
    (insertComplete σ e).DisjointMaps := by
  intro h' hc'
  simp only [insertComplete] at hc' ⊢
  rw [mapLookup_erase]
  by_cases hh : h' = e.hash
  · rw [if_pos hh]
  · rw [if_neg hh]
    rw [mapLookup_insert, if_neg hh] at hc'
    exact hσ h' hc'

theorem applyOp_preserves_disjoint (bao : BaoLib) (fs : Path → Option (List Nat))
    (σ : State) (op : StoreOp) (hσ : σ.DisjointMaps)
    (hop : SafeOp bao fs σ op = true) : (applyOp bao fs σ op).DisjointMaps := by
  cases op with
  | createPartialOp h s =>
    simp only [SafeOp, Option.isNone_iff_eq_none] at hop
    simp only [applyOp]
    cases hg : getOrCreatePartial bao σ h s with
    | error e => exact hσ
    | ok r =>
      unfold getOrCreatePartial at hg
      split at hg
      · exact absurd hg (by simp)
      · split at hg
        · exact absurd hg (by simp)
        · simp only [Except.ok.injEq] at hg
          subst hg
          intro h' hc'
          by_cases hh : h' = h
          · subst hh
            rw [hop] at hc'
            simp at hc'
          · rw [mapLookup_insert, if_neg hh]
            exact hσ h' hc'
  | insertCompleteOp e => exact disjoint_insertComplete σ hσ e
  | importBytesOp b =>
    simp only [SafeOp, Option.isNone_iff_eq_none] at hop
    exact disjoint_insert_complete σ hσ _ _ hop
  | importFileOp p =>
    simp only [applyOp, importSync]
    cases hfp : fs p with
    | none => exact hσ
    | some bytes =>
      simp only [SafeOp, hfp, Option.isNone_iff_eq_none] at hop
      exact disjoint_insert_complete σ hσ _ _ hop

/-- C1 (amended): for every hash and every sequence of store operations in
which `get_or_create_partial` is never called for a hash that is already
a key of the complete map and no import inserts bytes whose hash is a
live key of the partial map, the complete and partial maps stay disjoint.
(The source preserves disjointness on `insert_complete`, but
`import_bytes_sync` inserts into `complete` without removing a matching
partial entry, and `get_or_create_partial` inserts into `partial` without
checking `complete`.) -/
theorem ops_preserve_disjoint (bao : BaoLib) (fs : Path → Option (List Nat))
    (σ : State) (ops : List StoreOp) (hσ : σ.DisjointMaps)
    (hsafe : SafeOps bao fs σ ops = true) :
    (runOps bao fs σ ops).DisjointMaps := by
  induction ops generalizing σ with
  | nil => exact hσ
  | cons op rest ih =>
    simp only [SafeOps, Bool.and_eq_true] at hsafe
    exact ih _ (applyOp_preserves_disjoint bao fs σ op hσ hsafe.1) hsafe.2

/-- C1 (counterexample): starting from the empty store, allocating a
partial entry for the hash of the empty byte sequence and then importing
the empty byte sequence leaves that hash a key of both the complete and
the partial map, refuting the claimed invariant as stated. -/
theorem importBytes_breaks_disjointness :
    (mapLookup (runOps bao0 fs0 ⟨[], []⟩
        [.createPartialOp 0 0, .importBytesOp []]).complete 0).isSome = true ∧
    (mapLookup (runOps bao0 fs0 ⟨[], []⟩
        [.createPartialOp 0 0, .importBytesOp []]).partialMap 0).isSome = true := by
  decide

/-- C1 (witness): a concrete sequence exercising all four operations under
the amended side conditions keeps the maps disjoint. -/
theorem ops_preserve_disjoint_witness :
    State.DisjointMaps ⟨[], []⟩ ∧
    SafeOps bao0 fs0 ⟨[], []⟩
      [.createPartialOp 2 0, .insertCompleteOp ⟨2, ⟨2, ⟨0, 4⟩, ⟨[], 0⟩⟩, ⟨[], 0⟩⟩,
       .importBytesOp [9, 9], .importFileOp ⟨true, []⟩] = true ∧
    State.DisjointMaps (runOps bao0 fs0 ⟨[], []⟩
      [.createPartialOp 2 0, .insertCompleteOp ⟨2, ⟨2, ⟨0, 4⟩, ⟨[], 0⟩⟩, ⟨[], 0⟩⟩,
       .importBytesOp [9, 9], .importFileOp ⟨true, []⟩]) :=
  ⟨fun _ hc => by simp [mapLookup] at hc,
   by decide,
   ops_preserve_disjoint bao0 fs0 ⟨[], []⟩ _
     (fun _ hc => by simp [mapLookup] at hc) (by decide)⟩

/-- C4 (counterexample): `get_or_create_partial` with requested size 1
allocates a content buffer whose stored bytes are empty
(`BytesMut::with_capacity` reserves capacity but has length 0), not a
zero-initialized buffer of exactly 1 byte, refuting the claim as
stated. -/
theorem getOrCreatePartial_buffer_empty_cex :
    ((getOrCreatePartial bao0 ⟨[], []⟩ 0 1).toOption.map fun r => r.1.data.data) =
      some [] ∧
    some ([] : List Nat) ≠ some (List.replicate 1 (0 : Nat)) := by
  constructor
  · rfl
  · decide

/-- C4 (amended): `get_or_create_partial(hash, size)` fails with the
data-too-large error exactly when the outboard size or the content size
does not fit in the address space; otherwise it returns a handle whose
content buffer is empty with reserved capacity `size`, whose outboard
buffer is empty with reserved capacity equal to the pure outboard sizing
function of `size` (for the fixed block size), with tree metadata of
length `size` rooted at `hash`; it unconditionally overwrites any prior
partial entry for that hash, leaves other partial entries and the
complete map untouched. -/
theorem getOrCreatePartial_spec (bao : BaoLib) (σ : State) (h : Hash) (s : Nat) :
    (getOrCreatePartial bao σ h s = .error .dataTooLarge ↔
      bao.outboardSize s > USIZE_MAX ∨ s > USIZE_MAX) ∧
    ∀ p σ', getOrCreatePartial bao σ h s = .ok (p, σ') →
      p.hash = h ∧
      p.data = ⟨[], s⟩ ∧
      p.outboard = ⟨h, ⟨s, IROH_BLOCK_SIZE⟩, ⟨[], bao.outboardSize s⟩⟩ ∧
      mapLookup σ'.partialMap h = some (p.data, p.outboard) ∧
      (∀ h', h' ≠ h → mapLookup σ'.partialMap h' = mapLookup σ.partialMap h') ∧
      σ'.complete = σ.complete := by
  constructor
  · unfold getOrCreatePartial
    split
    · next hgt => simp [hgt]
    · next hgt =>
      split
      · next hgt2 => simp [hgt2]
      · next hgt2 => simp [hgt, hgt2]
  · intro p σ' hok
    unfold getOrCreatePartial at hok
    split at hok
    · exact absurd hok (by simp)
    · split at hok
      · exact absurd hok (by simp)
      · simp only [Except.ok.injEq, Prod.mk.injEq] at hok
        obtain ⟨hp, hσ⟩ := hok
        subst hp
        subst hσ
        refine ⟨rfl, rfl, rfl, ?_, ?_, rfl⟩
        · rw [mapLookup_insert, if_pos rfl]
        · intro h' hne
          rw [mapLookup_insert, if_neg hne]

/-- C4 (witness): the amended specification evaluated on a concrete
successful allocation of size 3. -/
theorem getOrCreatePartial_spec_witness :
    mapLookup
        (⟨[], [(7, (⟨[], 3⟩, ⟨7, ⟨3, 4⟩, ⟨[], 0⟩⟩))]⟩ : State).partialMap 7 =
      some (⟨[], 3⟩, ⟨7, ⟨3, 4⟩, ⟨[], 0⟩⟩) ∧
    (⟨[], [(7, (⟨[], 3⟩, ⟨7, ⟨3, 4⟩, ⟨[], 0⟩⟩))]⟩ : State).complete = [] :=
  have hspec := (getOrCreatePartial_spec bao0 ⟨[], []⟩ 7 3).2
    ⟨7, ⟨7, ⟨3, 4⟩, ⟨[], 0⟩⟩, ⟨[], 3⟩⟩
    ⟨[], [(7, (⟨[], 3⟩, ⟨7, ⟨3, 4⟩, ⟨[], 0⟩⟩))]⟩ (by rfl)
  ⟨hspec.2.2.2.1, hspec.2.2.2.2.2⟩

/-- C5 (counterexample): a concrete `import` emits the five milestones
with two distinct operation ids — `Found`, `CopyProgress` and `Size`
carry id 0 while `OutboardProgress` and `OutboardDone` carry id 1 — so
the milestones are not all tagged with one single id as claimed. -/
theorem import_ids_cex :
    ((importSync bao0 (fun _ => some [7]) ⟨[], []⟩ ⟨true, []⟩ ⟨0, []⟩).2.2.msgs.map
        ImportProgress.opId) = [0, 0, 0, 1, 1] ∧
    allSameId
        (importSync bao0 (fun _ => some [7]) ⟨[], []⟩ ⟨true, []⟩ ⟨0, []⟩).2.2.msgs =
      false := by
  constructor
  · rfl
  · rfl

/-- C5 (amended): for every path whose file is readable, `import` emits
exactly the milestones `Found`, `CopyProgress`, `Size`,
`OutboardProgress`, `OutboardDone` in that order, where the first three
share the operation id drawn by `import` and the last two share the
distinct operation id drawn again inside `import_bytes_sync`. -/
theorem import_milestones_two_ids (bao : BaoLib) (fs : Path → Option (List Nat))
    (σ : State) (path : Path) (c : Nat) (bytes : List Nat)
    (hfs : fs path = some bytes) :
    (importSync bao fs σ path ⟨c, []⟩).2.2.msgs =
      [.found c path, .copyProgress c 0, .size c bytes.length,
       .outboardProgress (c + 1) 0, .outboardDone (c + 1) (bao.rootHash bytes)] ∧
    c ≠ c + 1 := by
  refine ⟨?_, by omega⟩
  simp [importSync, hfs, importBytesSync]

/-- C5 (witness): the amended milestone theorem on a concrete import. -/
theorem import_milestones_two_ids_witness :
    (fun _ : Path => some [7]) ⟨true, []⟩ = some ([7] : List Nat) ∧
    ((importSync bao0 (fun _ => some [7]) ⟨[], []⟩ ⟨true, []⟩ ⟨5, []⟩).2.2.msgs =
      [.found 5 ⟨true, []⟩, .copyProgress 5 0, .size 5 1,
       .outboardProgress 6 0, .outboardDone 6 1] ∧ 5 ≠ 6) :=
  ⟨rfl, import_milestones_two_ids bao0 (fun _ => some [7]) ⟨[], []⟩ ⟨true, []⟩ 5 [7] rfl⟩

/-- C6: `export` fails with `InvalidInput` when the target is not
absolute, and fails with `NotFound` when the hash has no entry in the
complete map (in particular for a hash present only in the partial map),
for every absolute target with a parent. -/
theorem export_validation (σ : State) (h : Hash) (target : Path) :
    (target.isAbsolute = false → exportSync σ h target = .error .invalidInput) ∧
    (target.isAbsolute = true → target.parent.isSome = true →
      mapLookup σ.complete h = none → exportSync σ h target = .error .notFound) := by
  constructor
  · intro habs
    simp [exportSync, habs]
  · intro habs hpar hnone
    rw [Option.isSome_iff_exists] at hpar
    obtain ⟨pp, hpp⟩ := hpar
    simp [exportSync, habs, hpp, hnone]

/-- C6 (witness): a relative target fails `InvalidInput`, and a hash
present only in the partial map fails `NotFound` on an absolute target. -/
theorem export_validation_witness :
    exportSync ⟨[], [(5, (⟨[], 0⟩, ⟨5, ⟨0, 4⟩, ⟨[], 0⟩⟩))]⟩ 5 ⟨false, ["a"]⟩ =
      .error .invalidInput ∧
    exportSync ⟨[], [(5, (⟨[], 0⟩, ⟨5, ⟨0, 4⟩, ⟨[], 0⟩⟩))]⟩ 5 ⟨true, ["a", "b"]⟩ =
      .error .notFound :=
  ⟨(export_validation ⟨[], [(5, (⟨[], 0⟩, ⟨5, ⟨0, 4⟩, ⟨[], 0⟩⟩))]⟩ 5
      ⟨false, ["a"]⟩).1 rfl,
   (export_validation ⟨[], [(5, (⟨[], 0⟩, ⟨5, ⟨0, 4⟩, ⟨[], 0⟩⟩))]⟩ 5
      ⟨true, ["a", "b"]⟩).2 rfl rfl rfl⟩

theorem exportEvents_nil (fuel offset : Nat) : exportEvents fuel [] offset = [] := by
  cases fuel <;> rfl

theorem exportEvents_spec :
    ∀ (fuel : Nat) (data : List Nat), data.length ≤ fuel → ∀ offset : Nat,
      writtenBytes (exportEvents fuel data offset) = data ∧
      progressCalls (exportEvents fuel data offset) =
        (List.range (numChunks data.length)).map (fun i => offset + i * chunkSize) ∧
      PairedFrom offset (exportEvents fuel data offset) := by
  intro fuel
  induction fuel with
  | zero =>
    intro data hlen offset
    have hdata : data = [] := List.eq_nil_of_length_eq_zero (Nat.le_zero.mp hlen)
    subst hdata
    refine ⟨rfl, ?_, trivial⟩
    rw [show numChunks ([] : List Nat).length = 0 from rfl]
    rfl
  | succ n ih =>
    intro data hlen offset
    match data with
    | [] =>
      refine ⟨rfl, ?_, trivial⟩
      rw [show numChunks ([] : List Nat).length = 0 from rfl]
      rfl
    | d :: ds =>
      have hcpos : 0 < chunkSize := by decide
      have hlen1 : (d :: ds).length = ds.length + 1 := rfl
      have hdroplen : ((d :: ds).drop chunkSize).length ≤ n := by
        rw [List.length_drop, hlen1]
        rw [hlen1] at hlen
        omega
      by_cases hlc : (d :: ds).length ≤ chunkSize
      · -- a single chunk: the whole content
        have htake : (d :: ds).take chunkSize = d :: ds := List.take_of_length_le hlc
        have hdrop : (d :: ds).drop chunkSize = [] := List.drop_eq_nil_of_le hlc
        have hnum : numChunks (d :: ds).length = 1 := by
          have h1 : (d :: ds).length ≥ 1 := by rw [hlen1]; omega
          simp only [numChunks, chunkSize] at hlc h1 ⊢
          omega
        simp only [exportEvents, htake, hdrop, exportEvents_nil]
        refine ⟨by simp [writtenBytes], ?_, ?_⟩
        · rw [show progressCalls [ExportEvent.prog offset,
              ExportEvent.write (d :: ds)] = [offset] from rfl, hnum,
            show List.range 1 = [0] from rfl]
          simp
        · exact ⟨rfl, trivial⟩
      · -- more than one chunk
        have hlt : chunkSize < (d :: ds).length := Nat.not_le.mp hlc
        have htakelen : ((d :: ds).take chunkSize).length = chunkSize := by
          rw [List.length_take]
          exact Nat.min_eq_left (Nat.le_of_lt hlt)
        have hnum : numChunks (d :: ds).length =
            numChunks ((d :: ds).length - chunkSize) + 1 := by
          have h1 : chunkSize < ds.length + 1 := by rw [hlen1] at hlt; exact hlt
          rw [hlen1]
          simp only [numChunks, chunkSize] at h1 ⊢
          omega
        obtain ⟨ihw, ihp, ihpair⟩ :=
          ih ((d :: ds).drop chunkSize) hdroplen (offset + ((d :: ds).take chunkSize).length)
        rw [List.length_drop] at ihp
        simp only [exportEvents]
        refine ⟨?_, ?_, ?_⟩
        · simp only [writtenBytes]
          rw [ihw]
          exact List.take_append_drop _ _
        · simp only [progressCalls]
          rw [ihp, htakelen, hnum, List.range_succ_eq_map, List.map_cons, List.map_map]
          congr 1
          exact List.map_congr_left fun a _ => by
            simp only [Function.comp_apply, Nat.succ_eq_add_one]
            ring
        · exact ⟨rfl, ihpair⟩

/-- C7: for every complete entry, export succeeds and streams the stored
content in fixed 1 MiB chunks: the written bytes are exactly the stored
content, `progress` is called exactly once immediately before each chunk
write, and its arguments are the cumulative bytes written
0, 1 MiB, 2 MiB, …. -/
theorem export_chunks (σ : State) (h : Hash) (target : Path) (data : List Nat)
    (ob : PreOrderOutboard (List Nat)) (habs : target.isAbsolute = true)
    (hpar : target.parent.isSome = true)
    (hdata : mapLookup σ.complete h = some (data, ob)) :
    exportSync σ h target = .ok (exportEvents data.length data 0) ∧
    writtenBytes (exportEvents data.length data 0) = data ∧
    progressCalls (exportEvents data.length data 0) =
      (List.range (numChunks data.length)).map (fun i => i * chunkSize) ∧
    PairedFrom 0 (exportEvents data.length data 0) := by
  obtain ⟨hw, hp, hpair⟩ := exportEvents_spec data.length data (Nat.le_refl _) 0
  refine ⟨?_, hw, ?_, hpair⟩
  · rw [Option.isSome_iff_exists] at hpar
    obtain ⟨pp, hpp⟩ := hpar
    simp [exportSync, habs, hpp, hdata]
  · rw [hp]
    simp

/-- C7 (witness): the chunking theorem on a concrete three-byte complete
entry (a single chunk, one progress call with argument 0). -/
theorem export_chunks_witness :
    mapLookup
        (⟨[(3, ([1, 2, 3], ⟨3, ⟨3, 4⟩, []⟩))], []⟩ : State).complete 3 =
      some ([1, 2, 3], ⟨3, ⟨3, 4⟩, []⟩) ∧
    exportSync ⟨[(3, ([1, 2, 3], ⟨3, ⟨3, 4⟩, []⟩))], []⟩ 3 ⟨true, ["o", "f"]⟩ =
      .ok (exportEvents 3 [1, 2, 3] 0) ∧
    writtenBytes (exportEvents 3 [1, 2, 3] 0) = [1, 2, 3] :=
  have hspec := export_chunks ⟨[(3, ([1, 2, 3], ⟨3, ⟨3, 4⟩, []⟩))], []⟩ 3
    ⟨true, ["o", "f"]⟩ [1, 2, 3] ⟨3, ⟨3, 4⟩, []⟩ rfl rfl rfl
  ⟨rfl, hspec.1, hspec.2.1⟩

end MemStore
